import Mathlib

/-!
Verification of the LED-matrix driver (src/src/ledmatrix.cpp).

The development shallowly embeds the `LedMatrix` class: the member arrays
become fields of a `LedState` structure, each mutating member function
becomes a Lean function from the old state (plus arguments) to the new
state paired with the C return code, and the blink computation `doBlink`
takes the current millisecond clock value as an explicit parameter
(standing for the calls to `millis()` inside one invocation).
Machine integers (`uint32_t` matrix words, `unsigned long` times) are
modelled as `Nat` with explicit reduction modulo `2 ^ 32` where the C
arithmetic can wrap (the unsigned subtraction `millis() - blinkStartTime`
and the bitwise complement `~`).
-/

/-- Modelled from the spec: the header `ledmatrix.hpp` is not part of the
available sources; it defines the matrix dimensions. The spec fixes them
as 8 rows by 32 columns. -/
abbrev LED_ROWS : Nat := 8

/-- Modelled from the spec: number of columns from the missing header,
fixed by the spec as 32. -/
abbrev LED_COLS : Nat := 32

/-- Modelled from the spec: number of blink speed classes from the missing
header; the spec fixes exactly two (normal and slow). -/
abbrev NO_OF_SPEED_CLASSES : Nat := 2

/-- Modelled from the spec: index of the normal blink speed class. -/
abbrev BLINK_NORMAL : Nat := 0

/-- Modelled from the spec: index of the slow blink speed class. -/
abbrev BLINK_SLOW : Nat := 1

/-- Modelled from the spec: the glyph-code constants live in the missing
header. The reserved ERROR glyph is the three-horizontal-bars pattern,
entry 11 of the segment table. Only the fact that it is a valid table
index matters for the claims below. -/
abbrev CHAR_ERROR : Nat := 11

/-- Modulus of 32-bit unsigned arithmetic (`uint32_t`, AVR `unsigned long`). -/
abbrev U32 : Nat := 4294967296

/-- Offset between the start times of the blink speed classes
(`BLINK_VERSATZ` in ledmatrix.cpp). -/
abbrev BLINK_VERSATZ : Nat := 447

/-- Bright-phase durations per speed class (`BLINK_INTERVAL_BRIGHT`). -/
def BLINK_INTERVAL_BRIGHT : Fin NO_OF_SPEED_CLASSES → Nat :=
  fun sc => if sc.val = 0 then 1000 else 2000

/-- Dark-phase durations per speed class (`BLINK_INTERVAL_DARK`). -/
def BLINK_INTERVAL_DARK : Fin NO_OF_SPEED_CLASSES → Nat :=
  fun sc => if sc.val = 0 then 1000 else 6000

/-- Number of entries of the segment font table (`SEGMENT_CHARS`). -/
abbrev SEGMENT_CHARS : Nat := 29

/-- Segment font table (`segmentBits` in ledmatrix.cpp), one 7-bit
pattern per glyph, bit 0 = segment a, bit 6 = segment g. -/
def segmentBits : List Nat :=
  [0b0111111, 0b0000110, 0b1011011, 0b1001111, 0b1100110,
   0b1101101, 0b1111101, 0b0000111, 0b1111111, 0b1101111,
   0b0000000, 0b1001001, 0b0110110, 0b1110111, 0b1111100,
   0b0111001, 0b1011110, 0b1111001, 0b1110001, 0b0110110,
   0b0111000, 0b1011100, 0b1110011, 0b1010000, 0b0111110,
   0b0011100, 0b1000000, 0b1100011, 0b1011000]

/-- Embedding of `LedMatrix::get7SegBits`: selectors below `SEGMENT_CHARS`
index the table directly, ASCII digit characters 48..57 are mapped to the
digit entries, everything else yields the ERROR entry. The source indexes
the C array directly; the `getD` default 0 is never reached because every
index used is below the table length. -/
def get7SegBits (character : Nat) : Nat :=
  if SEGMENT_CHARS ≤ character then
    if 48 ≤ character ∧ character ≤ 57 then
      segmentBits.getD (character - 48) 0
    else
      segmentBits.getD CHAR_ERROR 0
  else
    segmentBits.getD character 0

/-- State of a `LedMatrix` object: the logical matrix `matrix`, the
physical matrix `hwMatrix`, the per-speed-class blink membership masks
`blinkStatus`, and the per-speed-class phase flag, phase start time and
pending phase duration. Words are `uint32_t` values, times are
`unsigned long` millisecond counts. -/
structure LedState where
  matrix : Fin LED_ROWS → Nat
  hwMatrix : Fin LED_ROWS → Nat
  blinkStatus : Fin NO_OF_SPEED_CLASSES → Fin LED_ROWS → Nat
  isBlinkDarkPhase : Fin NO_OF_SPEED_CLASSES → Bool
  blinkStartTime : Fin NO_OF_SPEED_CLASSES → Nat
  nextBlinkInterval : Fin NO_OF_SPEED_CLASSES → Nat

/-- Embedding of `LedMatrix::isValidRowCol`. -/
def isValidRowCol (row col : Nat) : Bool :=
  decide (row < LED_ROWS) && decide (col < LED_COLS)

/-- Embedding of `LedMatrix::isValidBlinkSpeed`. -/
def isValidBlinkSpeed (blinkSpeed : Nat) : Bool :=
  decide (blinkSpeed < NO_OF_SPEED_CLASSES)

/-- Bounds-checked read of `matrix[row]`; the source only indexes the
array after `isValidRowCol` has succeeded, so the default 0 branch is
never reached in any operation below. -/
def matrixRow (s : LedState) (row : Nat) : Nat :=
  if h : row < LED_ROWS then s.matrix ⟨row, h⟩ else 0

/-- Write of `matrix[row]` (or `hwMatrix[row]`): the word of the addressed
row is replaced, every other row keeps its word. -/
def setRow (f : Fin LED_ROWS → Nat) (row : Nat) (w : Nat) : Fin LED_ROWS → Nat :=
  fun r => if r.val = row then w else f r

/-- Bounds-checked read of `blinkStatus[speedClass][row]`. -/
def blinkStatusRow (s : LedState) (sc row : Nat) : Nat :=
  if h : sc < NO_OF_SPEED_CLASSES ∧ row < LED_ROWS then
    s.blinkStatus ⟨sc, h.1⟩ ⟨row, h.2⟩
  else 0

/-- Write of `blinkStatus[speedClass][row]`: the word of the addressed
class and row is replaced, all other entries keep their word. This models
the dispatch loop `for speedClass ...  if (blinkSpeed == speedClass)` of
the blink operations, which updates exactly the matching class. -/
def setBlinkStatusRow (f : Fin NO_OF_SPEED_CLASSES → Fin LED_ROWS → Nat)
    (sc row : Nat) (w : Nat) : Fin NO_OF_SPEED_CLASSES → Fin LED_ROWS → Nat :=
  fun j r => if j.val = sc ∧ r.val = row then w else f j r

/-- Bitwise complement on `uint32_t` (the C operator `~`). -/
def compl32 (m : Nat) : Nat := 4294967295 ^^^ m

/-- Unsigned 32-bit subtraction, as performed by
`millis() - blinkStartTime[speedClass]` on `unsigned long` values. -/
def usub32 (a b : Nat) : Nat := ((a % U32) + (U32 - b % U32)) % U32

/-- Embedding of `LedMatrix::isLedOn`: true iff the logical-matrix bit at
a valid position is set; false (not an error) for an invalid position. -/
def isLedOn (s : LedState) (row col : Nat) : Bool :=
  if isValidRowCol row col then
    decide ((matrixRow s row &&& ((1 : Nat) <<< col)) ≠ 0)
  else
    false

/-- Embedding of `LedMatrix::ledOn`: set one logical-matrix bit; returns
the new state and the C return code (0 success, -1 invalid position). -/
def ledOn (s : LedState) (row col : Nat) : LedState × Int :=
  if isValidRowCol row col then
    ({ s with matrix := setRow s.matrix row (matrixRow s row ||| ((1 : Nat) <<< col)) }, 0)
  else
    (s, -1)

/-- Embedding of `LedMatrix::ledOff`: clear one logical-matrix bit. -/
def ledOff (s : LedState) (row col : Nat) : LedState × Int :=
  if isValidRowCol row col then
    ({ s with matrix := setRow s.matrix row (matrixRow s row &&& compl32 ((1 : Nat) <<< col)) }, 0)
  else
    (s, -1)

/-- Embedding of `LedMatrix::ledToggle`: flip one logical-matrix bit by
delegating to `ledOn` or `ledOff` depending on `isLedOn`. -/
def ledToggle (s : LedState) (row col : Nat) : LedState × Int :=
  if LED_ROWS ≤ row ∨ LED_COLS ≤ col then
    (s, -1)
  else
    ((if isLedOn s row col then ledOff s row col else ledOn s row col).1, 0)

/-- Embedding of `LedMatrix::ledBlinkOn`: set one blink-membership bit of
the addressed speed class. -/
def ledBlinkOn (s : LedState) (row col blinkSpeed : Nat) : LedState × Int :=
  if isValidRowCol row col && isValidBlinkSpeed blinkSpeed then
    ({ s with blinkStatus := (setBlinkStatusRow s.blinkStatus blinkSpeed row
        (blinkStatusRow s blinkSpeed row ||| ((1 : Nat) <<< col))) }, 0)
  else
    (s, -1)

/-- Embedding of `LedMatrix::ledBlinkOff`: clear one blink-membership bit
of the addressed speed class. -/
def ledBlinkOff (s : LedState) (row col blinkSpeed : Nat) : LedState × Int :=
  if isValidRowCol row col && isValidBlinkSpeed blinkSpeed then
    ({ s with blinkStatus := (setBlinkStatusRow s.blinkStatus blinkSpeed row
        (blinkStatusRow s blinkSpeed row &&& compl32 ((1 : Nat) <<< col))) }, 0)
  else
    (s, -1)

/-- Embedding of `LedMatrix::set7SegValue`: clear the 8-bit digit span,
write the font pattern of the glyph into its low 7 bits, then set or
clear the decimal-point bit (the highest bit of the span) via
`ledOn` / `ledOff`. -/
def set7SegValue (s : LedState) (row col0 newValue : Nat) (dpOn : Bool) : LedState × Int :=
  if isValidRowCol row col0 && isValidRowCol row (col0 + 7) then
    let s1 := { s with matrix := (setRow s.matrix row
        (matrixRow s row &&& compl32 ((255 : Nat) <<< col0))) }
    let s2 := { s1 with matrix := (setRow s1.matrix row
        (matrixRow s1 row ||| (get7SegBits newValue <<< col0))) }
    let s3 := if dpOn then (ledOn s2 row (col0 + 7)).1 else (ledOff s2 row (col0 + 7)).1
    (s3, 0)
  else
    (s, -1)

/-- Embedding of `LedMatrix::set7SegBlinkOn`: set the blink-membership
bits of a whole digit span, with or without the decimal-point bit. -/
def set7SegBlinkOn (s : LedState) (row col0 : Nat) (dpBlink : Bool) (blinkSpeed : Nat) :
    LedState × Int :=
  if isValidRowCol row col0 && isValidRowCol row (col0 + 7) && isValidBlinkSpeed blinkSpeed then
    ({ s with blinkStatus := (setBlinkStatusRow s.blinkStatus blinkSpeed row
        (blinkStatusRow s blinkSpeed row |||
          ((if dpBlink then (255 : Nat) else 127) <<< col0))) }, 0)
  else
    (s, -1)

/-- Embedding of `LedMatrix::set7SegBlinkOff`: clear the blink-membership
bits of a whole digit span, with or without the decimal-point bit. -/
def set7SegBlinkOff (s : LedState) (row col0 : Nat) (dpBlink : Bool) (blinkSpeed : Nat) :
    LedState × Int :=
  if isValidRowCol row col0 && isValidRowCol row (col0 + 7) && isValidBlinkSpeed blinkSpeed then
    ({ s with blinkStatus := (setBlinkStatusRow s.blinkStatus blinkSpeed row
        (blinkStatusRow s blinkSpeed row &&&
          compl32 ((if dpBlink then (255 : Nat) else 127) <<< col0))) }, 0)
  else
    (s, -1)

/-- Check of `LedMatrix::doBlink` whether any LED blinks at all: the
double loop with early exit sets `blinkOn` to true exactly when some word
of some membership mask is nonzero. -/
def blinkOnCheck (s : LedState) : Bool :=
  decide (∃ sc : Fin NO_OF_SPEED_CLASSES, ∃ row : Fin LED_ROWS, s.blinkStatus sc row ≠ 0)

/-- Body of the per-speed-class timer loop of `LedMatrix::doBlink`: when
the elapsed time since the phase start exceeds the pending interval, load
the duration of the next phase, flip the phase flag and restart the timer
at the current clock value. Both calls to `millis()` inside one
invocation are represented by the same parameter `now`. -/
def updateBlinkPhase (now : Nat) (sc : Fin NO_OF_SPEED_CLASSES) (s : LedState) : LedState :=
  if s.nextBlinkInterval sc < usub32 now (s.blinkStartTime sc) then
    { s with
      nextBlinkInterval := (fun j => if j = sc then
          (if s.isBlinkDarkPhase sc then BLINK_INTERVAL_BRIGHT sc else BLINK_INTERVAL_DARK sc)
        else s.nextBlinkInterval j),
      isBlinkDarkPhase := (fun j => if j = sc then !(s.isBlinkDarkPhase sc)
        else s.isBlinkDarkPhase j),
      blinkStartTime := (fun j => if j = sc then now % U32 else s.blinkStartTime j) }
  else s

/-- One masking step of the copy loop of `LedMatrix::doBlink`: during the
dark phase of a speed class the members of that class are switched off. -/
def darkMask (dark : Bool) (mask m : Nat) : Nat :=
  if dark then m &&& compl32 mask else m

/-- Embedding of `LedMatrix::doBlink`: determine whether any LED blinks,
if so advance the phase of each speed class whose interval has elapsed
(class 0 first, then class 1, as the loop does), then rebuild `hwMatrix`
row by row from `matrix`, masking out the members of every speed class
that is currently in its dark phase. -/
def doBlink (now : Nat) (s : LedState) : LedState :=
  let blinkOn := blinkOnCheck s
  let s1 := if blinkOn then updateBlinkPhase now 1 (updateBlinkPhase now 0 s) else s
  { s1 with hwMatrix := (fun row =>
      if blinkOn then
        darkMask (s1.isBlinkDarkPhase 1) (s1.blinkStatus 1 row)
          (darkMask (s1.isBlinkDarkPhase 0) (s1.blinkStatus 0 row) (s1.matrix row))
      else s1.matrix row) }

/-- Hardware-line actions performed by `LedMatrix::display`: levels driven
on the strobe, data and clock pins, and microsecond delays. -/
inductive HwEvent where
  | strobe : Bool → HwEvent
  | dataIn : Bool → HwEvent
  | clock : Bool → HwEvent
  | delayMicros : Nat → HwEvent

/-- Column loop of `LedMatrix::display`: for `bit` from `n` down to 1,
drive DATA_IN with bit `bit - 1` of the word and pulse the clock. -/
def shiftColBits (w : Nat) : Nat → List HwEvent
  | 0 => []
  | b + 1 =>
    HwEvent.dataIn (decide (((w >>> b) &&& 1) ≠ 0)) :: HwEvent.clock true ::
      HwEvent.delayMicros 1 :: HwEvent.clock false :: shiftColBits w b

/-- Row-select loop of `LedMatrix::display`: like the column loop but with
a second delay after the falling clock edge. -/
def shiftRowBits (w : Nat) : Nat → List HwEvent
  | 0 => []
  | b + 1 =>
    HwEvent.dataIn (decide (((w >>> b) &&& 1) ≠ 0)) :: HwEvent.clock true ::
      HwEvent.delayMicros 1 :: HwEvent.clock false :: HwEvent.delayMicros 1 :: shiftRowBits w b

/-- Events emitted by `LedMatrix::display` for one row: strobe low, the
32 column bits of the row word, the 8 bits of `activeRow = 1 << row`,
strobe high. -/
def displayRowEvents (w : Nat) (row : Nat) : List HwEvent :=
  HwEvent.strobe false ::
    (shiftColBits w 32 ++ shiftRowBits ((1 : Nat) <<< row) 8 ++ [HwEvent.strobe true])

/-- Embedding of `LedMatrix::display`: run `doBlink`, then emit the events
of every row in ascending row order; returns the new state and the emitted
hardware-line trace. -/
def display (now : Nat) (s : LedState) : LedState × List HwEvent :=
  let s1 := doBlink now s
  (s1, (List.finRange LED_ROWS).flatMap (fun r => displayRowEvents (s1.hwMatrix r) r.val))

/-- Stated from the claim for comparison with the source: one clocked
data bit (clock pulse high then low around a minimum pulse width). -/
def specBitPulse (b : Bool) : List HwEvent :=
  [HwEvent.dataIn b, HwEvent.clock true, HwEvent.delayMicros 1, HwEvent.clock false]

/-- Stated from the claim for comparison with the source: one clocked
row-select bit. -/
def specRowSelectPulse (b : Bool) : List HwEvent :=
  [HwEvent.dataIn b, HwEvent.clock true, HwEvent.delayMicros 1, HwEvent.clock false,
   HwEvent.delayMicros 1]

/-- Stated from the claim for comparison with the source: for one row,
strobe low, the 32 bits of the physical-matrix word most significant bit
first, then an 8-bit one-hot row-select byte whose only set bit is the
bit of the current row, also most significant bit first, then strobe
high. -/
def specRowTrace (w row : Nat) : List HwEvent :=
  [HwEvent.strobe false]
    ++ (List.range 32).reverse.flatMap (fun i => specBitPulse (w.testBit i))
    ++ (List.range 8).reverse.flatMap (fun i => specRowSelectPulse (decide (i = row)))
    ++ [HwEvent.strobe true]

/-- Stated from the claim for comparison with the source: the whole
refresh trace, rows in ascending order. -/
def specRefreshTrace (hw : Fin LED_ROWS → Nat) : List HwEvent :=
  (List.finRange LED_ROWS).flatMap (fun r => specRowTrace (hw r) r.val)

/-- Embedding of the constructor `LedMatrix::LedMatrix`, parametrised by
the value `t0` of `millis()` at construction time: both matrices and all
membership masks zero, every class in the dark-phase flag state true,
staggered start times, bright durations pending. -/
def ledMatrixInit (t0 : Nat) : LedState where
  matrix := fun _ => 0
  hwMatrix := fun _ => 0
  blinkStatus := fun _ _ => 0
  isBlinkDarkPhase := fun _ => true
  blinkStartTime := fun sc => (t0 + sc.val * BLINK_VERSATZ) % U32
  nextBlinkInterval := fun sc => BLINK_INTERVAL_BRIGHT sc

/-- Concrete state used by the witnesses: matrix bit (0, 4) set, that LED
a member of the normal blink class only, normal class at the start of a
bright phase at time 0. -/
def c1State : LedState where
  matrix := fun r => if r.val = 0 then 16 else 0
  hwMatrix := fun _ => 0
  blinkStatus := fun sc r => if sc.val = 0 ∧ r.val = 0 then 16 else 0
  isBlinkDarkPhase := fun _ => false
  blinkStartTime := fun _ => 0
  nextBlinkInterval := fun sc => BLINK_INTERVAL_BRIGHT sc

/-- Statement that an operation left every component of the state except
the membership mask of speed class `sc` untouched: logical matrix,
physical matrix, phase flags, phase start times, pending intervals and
the mask of every other speed class are unchanged. -/
def blinkPreserves (s t : LedState) (sc : Nat) : Prop :=
  t.matrix = s.matrix
  ∧ t.hwMatrix = s.hwMatrix
  ∧ t.isBlinkDarkPhase = s.isBlinkDarkPhase
  ∧ t.blinkStartTime = s.blinkStartTime
  ∧ t.nextBlinkInterval = s.nextBlinkInterval
  ∧ ∀ j : Fin NO_OF_SPEED_CLASSES, j.val ≠ sc → t.blinkStatus j = s.blinkStatus j

/-- All entries of the segment font table are 7-bit patterns; so is the
out-of-range default. -/
theorem segmentBits_getD_lt (i : Nat) : segmentBits.getD i 0 < 128 := by
  rcases Nat.lt_or_ge i 29 with h | h
  · have hall : ∀ j, j < 29 → segmentBits.getD j 0 < 128 := by decide
    exact hall i h
  · rw [List.getD_eq_default]
    · exact (by decide : (0 : Nat) < 128)
    · simpa [segmentBits] using h

/-- C6: the segment-font lookup is total: an enumerated glyph code is
looked up directly, an ASCII digit character is mapped to the digit
entry, anything else yields the reserved ERROR entry, and the result is
always one of the defined 7-bit patterns. -/
theorem c6_font_total (ch : Nat) (hch : ch < 256) :
    (ch < SEGMENT_CHARS → get7SegBits ch = segmentBits.getD ch 0)
    ∧ (SEGMENT_CHARS ≤ ch → 48 ≤ ch → ch ≤ 57 →
        get7SegBits ch = segmentBits.getD (ch - 48) 0)
    ∧ (SEGMENT_CHARS ≤ ch → (ch < 48 ∨ 57 < ch) →
        get7SegBits ch = segmentBits.getD CHAR_ERROR 0)
    ∧ (∃ i, i < SEGMENT_CHARS ∧ get7SegBits ch = segmentBits.getD i 0)
    ∧ get7SegBits ch < 128 := by
  unfold get7SegBits
  refine ⟨?_, ?_, ?_, ?_, ?_⟩
  · intro h
    rw [if_neg (by omega)]
  · intro h1 h2 h3
    rw [if_pos (by omega), if_pos ⟨h2, h3⟩]
  · intro h1 h2
    rw [if_pos (by omega), if_neg (by omega)]
  · by_cases h1 : SEGMENT_CHARS ≤ ch
    · by_cases h2 : 48 ≤ ch ∧ ch ≤ 57
      · exact ⟨ch - 48, show ch - 48 < 29 by omega, by rw [if_pos h1, if_pos h2]⟩
      · exact ⟨CHAR_ERROR, by decide, by rw [if_pos h1, if_neg h2]⟩
    · exact ⟨ch, by omega, by rw [if_neg h1]⟩
  · split_ifs <;> exact segmentBits_getD_lt _

/-- Witness for C6 at the concrete selector 200. -/
theorem c6_font_total_witness : 200 < 256 ∧ get7SegBits 200 < 128 :=
  ⟨by decide, (c6_font_total 200 (by decide)).2.2.2.2⟩

/-- C3: every mutating operation rejects an out-of-range request (row or
column out of range, digit span not fully in range, or invalid speed
class) with return code -1 and an unchanged state. -/
theorem c3_out_of_range_rejected (s : LedState) (row col col0 glyph sc : Nat)
    (dp dpb : Bool) :
    (¬(row < LED_ROWS ∧ col < LED_COLS) →
      ledOn s row col = (s, -1) ∧ ledOff s row col = (s, -1)
        ∧ ledToggle s row col = (s, -1))
    ∧ (¬(row < LED_ROWS ∧ col0 < LED_COLS ∧ col0 + 7 < LED_COLS) →
      set7SegValue s row col0 glyph dp = (s, -1))
    ∧ (¬(row < LED_ROWS ∧ col < LED_COLS ∧ sc < NO_OF_SPEED_CLASSES) →
      ledBlinkOn s row col sc = (s, -1) ∧ ledBlinkOff s row col sc = (s, -1))
    ∧ (¬(row < LED_ROWS ∧ col0 < LED_COLS ∧ col0 + 7 < LED_COLS
          ∧ sc < NO_OF_SPEED_CLASSES) →
      set7SegBlinkOn s row col0 dpb sc = (s, -1)
        ∧ set7SegBlinkOff s row col0 dpb sc = (s, -1)) := by
  refine ⟨?_, ?_, ?_, ?_⟩
  · intro h
    have hv : isValidRowCol row col = false := by
      by_contra hcon
      rw [Bool.not_eq_false] at hcon
      simp only [isValidRowCol, Bool.and_eq_true, decide_eq_true_eq] at hcon
      omega
    refine ⟨?_, ?_, ?_⟩
    · simp [ledOn, hv]
    · simp [ledOff, hv]
    · unfold ledToggle
      rw [if_pos (by omega)]
  · intro h
    have hv : (isValidRowCol row col0 && isValidRowCol row (col0 + 7)) = false := by
      by_contra hcon
      rw [Bool.not_eq_false, Bool.and_eq_true] at hcon
      simp only [isValidRowCol, Bool.and_eq_true, decide_eq_true_eq] at hcon
      omega
    simp [set7SegValue, hv]
  · intro h
    have hv : (isValidRowCol row col && isValidBlinkSpeed sc) = false := by
      by_contra hcon
      rw [Bool.not_eq_false, Bool.and_eq_true] at hcon
      simp only [isValidRowCol, isValidBlinkSpeed, Bool.and_eq_true,
        decide_eq_true_eq] at hcon
      omega
    exact ⟨by simp [ledBlinkOn, hv], by simp [ledBlinkOff, hv]⟩
  · intro h
    have hv : (isValidRowCol row col0 && isValidRowCol row (col0 + 7)
        && isValidBlinkSpeed sc) = false := by
      by_contra hcon
      rw [Bool.not_eq_false, Bool.and_eq_true, Bool.and_eq_true] at hcon
      simp only [isValidRowCol, isValidBlinkSpeed, Bool.and_eq_true,
        decide_eq_true_eq] at hcon
      omega
    exact ⟨by simp [set7SegBlinkOn, hv], by simp [set7SegBlinkOff, hv]⟩

/-- Witness for C3: a row out of range, a digit span out of range and a
speed class out of range are each rejected without effect. -/
theorem c3_out_of_range_rejected_witness :
    ledOn (ledMatrixInit 0) 8 0 = (ledMatrixInit 0, -1)
    ∧ set7SegValue (ledMatrixInit 0) 0 28 7 false = (ledMatrixInit 0, -1)
    ∧ ledBlinkOn (ledMatrixInit 0) 0 0 2 = (ledMatrixInit 0, -1) :=
  ⟨((c3_out_of_range_rejected (ledMatrixInit 0) 8 0 28 7 2 false false).1 (by decide)).1,
   (c3_out_of_range_rejected (ledMatrixInit 0) 8 0 28 7 2 false false).2.1 (by decide),
   ((c3_out_of_range_rejected (ledMatrixInit 0) 0 0 28 7 2 false false).2.2.1 (by decide)).1⟩

/-- Bit of the 8-bit mask constant 255. -/
theorem testBit_255 (i : Nat) : Nat.testBit 255 i = decide (i < 8) := by
  rw [show (255 : Nat) = 2 ^ 8 - 1 by norm_num, Nat.testBit_two_pow_sub_one]

/-- Below bit 32 the 32-bit complement flips each bit. -/
theorem testBit_compl32 {x : Nat} {c : Nat} (h : c < 32) :
    (compl32 x).testBit c = !(x.testBit c) := by
  unfold compl32
  rw [Nat.testBit_xor, show (4294967295 : Nat) = 2 ^ 32 - 1 by norm_num,
    Nat.testBit_two_pow_sub_one, decide_eq_true h, Bool.true_xor]

/-- From bit 32 on the 32-bit complement leaves each bit unchanged. -/
theorem testBit_compl32_ge {x : Nat} {c : Nat} (h : 32 ≤ c) :
    (compl32 x).testBit c = x.testBit c := by
  unfold compl32
  rw [Nat.testBit_xor, show (4294967295 : Nat) = 2 ^ 32 - 1 by norm_num,
    Nat.testBit_two_pow_sub_one]
  have hc : ¬(c < 32) := by omega
  simp [hc]

/-- A `uint32_t` value has no bits from position 32 on. -/
theorem testBit_eq_false_of_lt_U32 {m i : Nat} (hm : m < U32) (hi : 32 ≤ i) :
    m.testBit i = false :=
  Nat.testBit_lt_two_pow
    (lt_of_lt_of_le (show m < 2 ^ 32 by norm_num at hm ⊢; omega)
      (Nat.pow_le_pow_right (by norm_num) hi))

/-- Reading back the digit span after clearing it, writing a 7-bit font
value and setting the decimal-point bit yields the font value plus 128. -/
theorem span_readback_on (m v col0 : Nat) (h : col0 + 7 < 32) (hv : v < 128) :
    (((((m &&& compl32 (255 <<< col0)) ||| (v <<< col0)) ||| ((1 : Nat) <<< (col0 + 7)))
      >>> col0) &&& 255) = v ||| 128 := by
  apply Nat.eq_of_testBit_eq
  intro i
  rw [Nat.one_shiftLeft]
  by_cases hi : i < 8
  · have h32 : col0 + i < 32 := by omega
    simp only [Nat.testBit_and, Nat.testBit_or, Nat.testBit_shiftRight, Nat.testBit_shiftLeft,
      Nat.testBit_two_pow, testBit_255, testBit_compl32 h32, ge_iff_le,
      decide_eq_true (Nat.le_add_right col0 i), Bool.true_and, Nat.add_sub_cancel_left,
      show (128 : Nat) = 2 ^ 7 by norm_num]
    have e1 : decide (i < 8) = true := decide_eq_true hi
    rw [e1, Bool.and_true]
    by_cases h7 : i = 7
    · subst h7
      simp
    · have e2 : decide (col0 + 7 = col0 + i) = false := by
        simp only [decide_eq_false_iff_not]
        omega
      have e3 : decide (7 = i) = false := by
        simp only [decide_eq_false_iff_not]
        omega
      rw [e2, e3]
      simp
  · have e1 : decide (i < 8) = false := by
      simp only [decide_eq_false_iff_not]
      omega
    rw [Nat.testBit_and, testBit_255, e1, Bool.and_false]
    have hr : v ||| 128 < 2 ^ 8 :=
      Nat.or_lt_two_pow (lt_of_lt_of_le hv (by norm_num)) (by norm_num)
    rw [Nat.testBit_lt_two_pow (lt_of_lt_of_le hr (Nat.pow_le_pow_right (by norm_num) (by omega)))]

/-- Reading back the digit span after clearing it, writing a 7-bit font
value and clearing the decimal-point bit yields the font value. -/
theorem span_readback_off (m v col0 : Nat) (h : col0 + 7 < 32) (hv : v < 128) :
    (((((m &&& compl32 (255 <<< col0)) ||| (v <<< col0))
        &&& compl32 ((1 : Nat) <<< (col0 + 7)))
      >>> col0) &&& 255) = v := by
  apply Nat.eq_of_testBit_eq
  intro i
  rw [Nat.one_shiftLeft]
  by_cases hi : i < 8
  · have h32 : col0 + i < 32 := by omega
    simp only [Nat.testBit_and, Nat.testBit_or, Nat.testBit_shiftRight, Nat.testBit_shiftLeft,
      Nat.testBit_two_pow, testBit_255, testBit_compl32 h32, ge_iff_le,
      decide_eq_true (Nat.le_add_right col0 i), Bool.true_and, Nat.add_sub_cancel_left]
    have e1 : decide (i < 8) = true := decide_eq_true hi
    rw [e1, Bool.and_true]
    by_cases h7 : i = 7
    · subst h7
      have e2 : decide (col0 + 7 = col0 + 7) = true := by simp
      rw [e2]
      have hv7 : v < 2 ^ 7 := lt_of_lt_of_le hv (by norm_num)
      simp [Nat.testBit_lt_two_pow hv7]
    · have e2 : decide (col0 + 7 = col0 + i) = false := by
        simp only [decide_eq_false_iff_not]
        omega
      rw [e2]
      simp
  · have e1 : decide (i < 8) = false := by
      simp only [decide_eq_false_iff_not]
      omega
    rw [Nat.testBit_and, testBit_255, e1, Bool.and_false]
    have hv8 : v < 2 ^ 8 := lt_of_lt_of_le hv (by norm_num)
    rw [Nat.testBit_lt_two_pow (lt_of_lt_of_le hv8 (Nat.pow_le_pow_right (by norm_num) (by omega)))]

/-- Every result of the font lookup is a 7-bit pattern. -/
theorem get7SegBits_lt (ch : Nat) : get7SegBits ch < 128 := by
  unfold get7SegBits
  split_ifs <;> exact segmentBits_getD_lt _

/-- Reading the row just written by `setRow` yields the written word. -/
theorem setRow_self (f : Fin LED_ROWS → Nat) (row w : Nat) (r : Fin LED_ROWS)
    (h : r.val = row) : setRow f row w r = w := by
  simp [setRow, h]

/-- Reading another row than the one written by `setRow` is unchanged. -/
theorem setRow_other (f : Fin LED_ROWS → Nat) (row w : Nat) (r : Fin LED_ROWS)
    (h : r.val ≠ row) : setRow f row w r = f r := by
  simp [setRow, h]

/-- The bounds-checked row read agrees with the matrix field. -/
theorem matrixRow_val (s : LedState) (row : Nat) (h : row < LED_ROWS) :
    matrixRow s row = s.matrix ⟨row, h⟩ := by
  unfold matrixRow
  rw [dif_pos h]

/-- Testing a word against a single-bit mask is testing that bit. -/
theorem land_shift_ne_zero (m col : Nat) :
    decide ((m &&& ((1 : Nat) <<< col)) ≠ 0) = m.testBit col := by
  rw [Nat.one_shiftLeft]
  cases hbit : m.testBit col
  · have hz : m &&& 2 ^ col = 0 := by
      apply Nat.eq_of_testBit_eq
      intro i
      rw [Nat.testBit_and, Nat.testBit_two_pow, Nat.zero_testBit]
      by_cases hic : col = i
      · subst hic
        simp [hbit]
      · simp [hic]
    simp [hz]
  · have hnz : (m &&& 2 ^ col).testBit col = true := by
      rw [Nat.testBit_and, Nat.testBit_two_pow]
      simp [hbit]
    refine decide_eq_true ?_
    intro h0
    rw [h0, Nat.zero_testBit] at hnz
    exact Bool.false_ne_true hnz

/-- Setting a clear bit of a 32-bit word and clearing it again restores
the word. -/
theorem set_then_clear (m col : Nat) (hcol : col < 32) (hm : m < U32)
    (hbit : m.testBit col = false) :
    ((m ||| ((1 : Nat) <<< col)) &&& compl32 ((1 : Nat) <<< col)) = m := by
  rw [Nat.one_shiftLeft]
  apply Nat.eq_of_testBit_eq
  intro i
  by_cases hi : i < 32
  · rw [Nat.testBit_and, Nat.testBit_or, testBit_compl32 hi, Nat.testBit_two_pow]
    by_cases hic : col = i
    · subst hic
      simp [hbit]
    · simp [hic]
  · have h32 : 32 ≤ i := by omega
    rw [Nat.testBit_and, Nat.testBit_or, testBit_compl32_ge h32, Nat.testBit_two_pow]
    have h1 : m.testBit i = false := testBit_eq_false_of_lt_U32 hm h32
    have h2 : decide (col = i) = false := by
      simp only [decide_eq_false_iff_not]
      omega
    simp [h1, h2]

/-- Clearing a set bit of a 32-bit word and setting it again restores
the word. -/
theorem clear_then_set (m col : Nat) (hcol : col < 32) (hm : m < U32)
    (hbit : m.testBit col = true) :
    ((m &&& compl32 ((1 : Nat) <<< col)) ||| ((1 : Nat) <<< col)) = m := by
  rw [Nat.one_shiftLeft]
  apply Nat.eq_of_testBit_eq
  intro i
  by_cases hi : i < 32
  · rw [Nat.testBit_or, Nat.testBit_and, testBit_compl32 hi, Nat.testBit_two_pow]
    by_cases hic : col = i
    · subst hic
      simp [hbit]
    · simp [hic]
  · have h32 : 32 ≤ i := by omega
    rw [Nat.testBit_or, Nat.testBit_and, testBit_compl32_ge h32, Nat.testBit_two_pow]
    have h1 : m.testBit i = false := testBit_eq_false_of_lt_U32 hm h32
    have h2 : decide (col = i) = false := by
      simp only [decide_eq_false_iff_not]
      omega
    simp [h1, h2]

/-- C2: after `set7SegValue` the 8-bit span of the logical matrix at the
addressed digit position equals exactly the font pattern of the glyph in
the low 7 bits plus the decimal-point flag in the highest bit, whatever
was stored there before. -/
theorem c2_setDigit_span (s : LedState) (row col0 glyph : Nat) (dp : Bool)
    (hrow : row < LED_ROWS) (hspan : col0 + 7 < LED_COLS) (r : Fin LED_ROWS)
    (hr : r.val = row) :
    (((set7SegValue s row col0 glyph dp).1.matrix r >>> col0) &&& 255)
      = get7SegBits glyph ||| (if dp then (128 : Nat) else 0)
    ∧ get7SegBits glyph < 128 := by
  subst hr
  have hvalid : (isValidRowCol r.val col0 && isValidRowCol r.val (col0 + 7)) = true := by
    simp only [isValidRowCol, Bool.and_eq_true, decide_eq_true_eq]
    refine ⟨⟨hrow, ?_⟩, hrow, hspan⟩
    omega
  have hv2 : isValidRowCol r.val (col0 + 7) = true := by
    simp only [isValidRowCol, Bool.and_eq_true, decide_eq_true_eq]
    exact ⟨hrow, hspan⟩
  refine ⟨?_, get7SegBits_lt glyph⟩
  unfold set7SegValue
  rw [hvalid, if_pos rfl]
  cases dp
  · simp only [Bool.false_eq_true, if_false]
    unfold ledOff
    rw [hv2, if_pos rfl]
    simp only [setRow_self _ _ _ _ rfl, matrixRow_val _ _ hrow]
    rw [span_readback_off (s.matrix ⟨r.val, hrow⟩) (get7SegBits glyph) col0 hspan
      (get7SegBits_lt glyph)]
    simp
  · simp only [if_true]
    unfold ledOn
    rw [hv2, if_pos rfl]
    simp only [setRow_self _ _ _ _ rfl, matrixRow_val _ _ hrow]
    rw [span_readback_on (s.matrix ⟨r.val, hrow⟩) (get7SegBits glyph) col0 hspan
      (get7SegBits_lt glyph)]

/-- Witness for C2 at row 2, start column 8, glyph 7, decimal point off. -/
theorem c2_setDigit_span_witness :
    (((set7SegValue (ledMatrixInit 0) 2 8 7 false).1.matrix ⟨2, by decide⟩ >>> 8) &&& 255)
      = get7SegBits 7 ||| (if false then (128 : Nat) else 0)
    ∧ get7SegBits 7 < 128 :=
  c2_setDigit_span (ledMatrixInit 0) 2 8 7 false (by decide) (by decide) ⟨2, by decide⟩ rfl

/-- Matrix change performed by one valid `ledToggle` call: the word of the
addressed row has the addressed bit cleared if it was set and set if it
was clear; all other rows are untouched. -/
theorem ledToggle_matrix_at (s : LedState) (row col : Nat) (hrow : row < LED_ROWS)
    (hcol : col < LED_COLS) (r : Fin LED_ROWS) :
    (ledToggle s row col).1.matrix r =
      if r.val = row then
        (if (s.matrix ⟨row, hrow⟩).testBit col
         then s.matrix ⟨row, hrow⟩ &&& compl32 ((1 : Nat) <<< col)
         else s.matrix ⟨row, hrow⟩ ||| ((1 : Nat) <<< col))
      else s.matrix r := by
  have hv : isValidRowCol row col = true := by
    simp only [isValidRowCol, Bool.and_eq_true, decide_eq_true_eq]
    exact ⟨hrow, hcol⟩
  have hled : isLedOn s row col = (s.matrix ⟨row, hrow⟩).testBit col := by
    unfold isLedOn
    rw [hv, if_pos rfl, matrixRow_val _ _ hrow, land_shift_ne_zero]
  unfold ledToggle
  rw [if_neg (not_or.mpr ⟨Nat.not_le.mpr hrow, Nat.not_le.mpr hcol⟩), hled]
  cases hbit : (s.matrix ⟨row, hrow⟩).testBit col
  · simp only [Bool.false_eq_true, if_false]
    unfold ledOn
    rw [hv, if_pos rfl, matrixRow_val _ _ hrow]
    by_cases hr : r.val = row
    · rw [if_pos hr]
      exact setRow_self _ _ _ _ hr
    · rw [if_neg hr]
      exact setRow_other _ _ _ _ hr
  · simp only [if_true]
    unfold ledOff
    rw [hv, if_pos rfl, matrixRow_val _ _ hrow]
    by_cases hr : r.val = row
    · rw [if_pos hr]
      exact setRow_self _ _ _ _ hr
    · rw [if_neg hr]
      exact setRow_other _ _ _ _ hr

/-- C8: for a valid position, `ledOn` makes `isLedOn` true, `ledOff` makes
it false, and two `ledToggle` calls restore the logical matrix exactly
(over 32-bit words, which every reachable matrix word is). -/
theorem c8_set_clear_toggle (s : LedState) (row col : Nat) (hrow : row < LED_ROWS)
    (hcol : col < LED_COLS) (hm : ∀ r, s.matrix r < U32) :
    isLedOn (ledOn s row col).1 row col = true
    ∧ isLedOn (ledOff s row col).1 row col = false
    ∧ (ledToggle (ledToggle s row col).1 row col).1.matrix = s.matrix := by
  have hv : isValidRowCol row col = true := by
    simp only [isValidRowCol, Bool.and_eq_true, decide_eq_true_eq]
    exact ⟨hrow, hcol⟩
  have hmat1 : (ledOn s row col).1.matrix
      = setRow s.matrix row (s.matrix ⟨row, hrow⟩ ||| ((1 : Nat) <<< col)) := by
    unfold ledOn
    rw [hv, if_pos rfl, matrixRow_val _ _ hrow]
  have hmat2 : (ledOff s row col).1.matrix
      = setRow s.matrix row (s.matrix ⟨row, hrow⟩ &&& compl32 ((1 : Nat) <<< col)) := by
    unfold ledOff
    rw [hv, if_pos rfl, matrixRow_val _ _ hrow]
  refine ⟨?_, ?_, ?_⟩
  · unfold isLedOn
    rw [hv, if_pos rfl, matrixRow_val _ _ hrow, hmat1,
      setRow_self s.matrix row _ ⟨row, hrow⟩ rfl,
      land_shift_ne_zero, Nat.one_shiftLeft, Nat.testBit_or, Nat.testBit_two_pow]
    simp
  · unfold isLedOn
    rw [hv, if_pos rfl, matrixRow_val _ _ hrow, hmat2,
      setRow_self s.matrix row _ ⟨row, hrow⟩ rfl,
      land_shift_ne_zero, Nat.one_shiftLeft, Nat.testBit_and,
      testBit_compl32 hcol, Nat.testBit_two_pow]
    simp
  · have hmk : (ledToggle s row col).1.matrix ⟨row, hrow⟩ =
        (if (s.matrix ⟨row, hrow⟩).testBit col
         then s.matrix ⟨row, hrow⟩ &&& compl32 ((1 : Nat) <<< col)
         else s.matrix ⟨row, hrow⟩ ||| ((1 : Nat) <<< col)) := by
      rw [ledToggle_matrix_at s row col hrow hcol ⟨row, hrow⟩, if_pos rfl]
    funext r
    rw [ledToggle_matrix_at ((ledToggle s row col).1) row col hrow hcol r, hmk,
      ledToggle_matrix_at s row col hrow hcol r]
    by_cases hr : r.val = row
    · rw [if_pos hr]
      have hre : r = (⟨row, hrow⟩ : Fin LED_ROWS) := Fin.ext hr
      cases hbit : (s.matrix ⟨row, hrow⟩).testBit col
      · simp only [Bool.false_eq_true, if_false]
        have hset : (s.matrix ⟨row, hrow⟩ ||| ((1 : Nat) <<< col)).testBit col = true := by
          rw [Nat.one_shiftLeft, Nat.testBit_or, Nat.testBit_two_pow]
          simp
        rw [hset, if_pos rfl, set_then_clear _ col hcol (hm ⟨row, hrow⟩) hbit, hre]
      · simp only [if_true]
        have hclr : (s.matrix ⟨row, hrow⟩ &&& compl32 ((1 : Nat) <<< col)).testBit col
            = false := by
          rw [Nat.one_shiftLeft, Nat.testBit_and,
            testBit_compl32 hcol, Nat.testBit_two_pow]
          simp
        rw [hclr]
        simp only [Bool.false_eq_true, if_false]
        rw [clear_then_set _ col hcol (hm ⟨row, hrow⟩) hbit, hre]
    · rw [if_neg hr, if_neg hr]

/-- Witness for C8 at position (3, 5) of the freshly constructed state. -/
theorem c8_set_clear_toggle_witness :
    isLedOn (ledOn (ledMatrixInit 0) 3 5).1 3 5 = true
    ∧ isLedOn (ledOff (ledMatrixInit 0) 3 5).1 3 5 = false
    ∧ (ledToggle (ledToggle (ledMatrixInit 0) 3 5).1 3 5).1.matrix
        = (ledMatrixInit 0).matrix :=
  c8_set_clear_toggle (ledMatrixInit 0) 3 5 (by decide) (by decide)
    (fun r => by simp [ledMatrixInit])

/-- The phase update of one speed class never touches the matrices. -/
theorem updateBlinkPhase_matrix (now : Nat) (sc : Fin NO_OF_SPEED_CLASSES) (s : LedState) :
    (updateBlinkPhase now sc s).matrix = s.matrix := by
  unfold updateBlinkPhase
  split <;> rfl

/-- The phase update of one speed class never touches the membership
masks. -/
theorem updateBlinkPhase_blinkStatus (now : Nat) (sc : Fin NO_OF_SPEED_CLASSES)
    (s : LedState) : (updateBlinkPhase now sc s).blinkStatus = s.blinkStatus := by
  unfold updateBlinkPhase
  split <;> rfl

/-- The phase update of one speed class never touches the physical
matrix. -/
theorem updateBlinkPhase_hwMatrix (now : Nat) (sc : Fin NO_OF_SPEED_CLASSES)
    (s : LedState) : (updateBlinkPhase now sc s).hwMatrix = s.hwMatrix := by
  unfold updateBlinkPhase
  split <;> rfl

/-- The blink computation never modifies the logical matrix. -/
theorem doBlink_matrix (now : Nat) (s : LedState) :
    (doBlink now s).matrix = s.matrix := by
  simp only [doBlink]
  split
  · rw [updateBlinkPhase_matrix, updateBlinkPhase_matrix]
  · rfl

/-- The blink computation never modifies the membership masks. -/
theorem doBlink_blinkStatus (now : Nat) (s : LedState) :
    (doBlink now s).blinkStatus = s.blinkStatus := by
  simp only [doBlink]
  split
  · rw [updateBlinkPhase_blinkStatus, updateBlinkPhase_blinkStatus]
  · rfl

/-- The phase update commutes with replacing the physical matrix, which
it neither reads nor writes. -/
theorem updateBlinkPhase_hw_comm (now : Nat) (sc : Fin NO_OF_SPEED_CLASSES)
    (s : LedState) (hw : Fin LED_ROWS → Nat) :
    updateBlinkPhase now sc { s with hwMatrix := hw }
      = { updateBlinkPhase now sc s with hwMatrix := hw } := by
  by_cases hc : s.nextBlinkInterval sc < usub32 now (s.blinkStartTime sc)
  · simp only [updateBlinkPhase]
    rw [if_pos hc, if_pos hc]
  · simp only [updateBlinkPhase]
    rw [if_neg hc, if_neg hc]

/-- The physical matrix computed by the blink step does not depend on the
physical matrix the state started from. -/
theorem doBlink_hwMatrix_fresh (now : Nat) (s : LedState) (hw : Fin LED_ROWS → Nat) :
    (doBlink now { s with hwMatrix := hw }).hwMatrix = (doBlink now s).hwMatrix := by
  have hb : blinkOnCheck { s with hwMatrix := hw } = blinkOnCheck s := rfl
  funext row
  cases hbv : blinkOnCheck s
  · simp [doBlink, hb, hbv]
  · simp [doBlink, hb, hbv, updateBlinkPhase_hw_comm]

/-- C9: one refresh computation leaves the logical matrix and every blink
membership mask byte-for-byte unchanged, and the physical matrix it
produces does not depend on the physical matrix it started from. -/
theorem c9_refresh_pure (now : Nat) (s : LedState) (hw : Fin LED_ROWS → Nat) :
    (doBlink now s).matrix = s.matrix
    ∧ (doBlink now s).blinkStatus = s.blinkStatus
    ∧ (doBlink now { s with hwMatrix := hw }).hwMatrix = (doBlink now s).hwMatrix := by
  exact ⟨doBlink_matrix now s, doBlink_blinkStatus now s, doBlink_hwMatrix_fresh now s hw⟩

/-- C4: when no LED is a member of any blink speed class, the physical
matrix computed by the refresh is byte-identical to the logical matrix,
whatever the clock value and the phase and timer state. -/
theorem c4_no_blink_passthrough (now : Nat) (s : LedState)
    (hmask : ∀ sc r, s.blinkStatus sc r = 0) :
    (doBlink now s).hwMatrix = s.matrix := by
  have hb : blinkOnCheck s = false := by
    unfold blinkOnCheck
    refine decide_eq_false ?_
    rintro ⟨sc, r, hne⟩
    exact hne (hmask sc r)
  funext r
  simp only [doBlink, hb, Bool.false_eq_true, if_false]

/-- Witness for C4: the freshly constructed state sampled at clock
value 5000. -/
theorem c4_no_blink_passthrough_witness :
    (doBlink 5000 (ledMatrixInit 0)).hwMatrix = (ledMatrixInit 0).matrix :=
  c4_no_blink_passthrough 5000 (ledMatrixInit 0) (fun _ _ => rfl)

/-- A membership-mask write touches nothing but the addressed class. -/
theorem blinkPreserves_update (s : LedState) (sc row w : Nat) :
    blinkPreserves s { s with blinkStatus := setBlinkStatusRow s.blinkStatus sc row w } sc := by
  refine ⟨rfl, rfl, rfl, rfl, rfl, ?_⟩
  intro j hj
  funext r
  simp [setBlinkStatusRow, hj]

/-- A rejected operation touches nothing at all. -/
theorem blinkPreserves_refl (s : LedState) (sc : Nat) : blinkPreserves s s sc :=
  ⟨rfl, rfl, rfl, rfl, rfl, fun _ _ => rfl⟩

/-- C10: the four blink-membership operations modify only the membership
mask of the addressed speed class; the logical matrix, the physical
matrix, the phase flags, the phase start times, the pending intervals and
the mask of the other class are unchanged, so in particular the phase
timer is not restarted. -/
theorem c10_blink_ops_only_mask (s : LedState) (row col col0 sc : Nat) (dpb : Bool) :
    blinkPreserves s (ledBlinkOn s row col sc).1 sc
    ∧ blinkPreserves s (ledBlinkOff s row col sc).1 sc
    ∧ blinkPreserves s (set7SegBlinkOn s row col0 dpb sc).1 sc
    ∧ blinkPreserves s (set7SegBlinkOff s row col0 dpb sc).1 sc := by
  refine ⟨?_, ?_, ?_, ?_⟩
  · unfold ledBlinkOn
    by_cases hc : (isValidRowCol row col && isValidBlinkSpeed sc) = true
    · rw [hc, if_pos rfl]
      exact blinkPreserves_update s sc row _
    · rw [if_neg hc]
      exact blinkPreserves_refl s sc
  · unfold ledBlinkOff
    by_cases hc : (isValidRowCol row col && isValidBlinkSpeed sc) = true
    · rw [hc, if_pos rfl]
      exact blinkPreserves_update s sc row _
    · rw [if_neg hc]
      exact blinkPreserves_refl s sc
  · unfold set7SegBlinkOn
    by_cases hc : (isValidRowCol row col0 && isValidRowCol row (col0 + 7)
        && isValidBlinkSpeed sc) = true
    · rw [hc, if_pos rfl]
      exact blinkPreserves_update s sc row _
    · rw [if_neg hc]
      exact blinkPreserves_refl s sc
  · unfold set7SegBlinkOff
    by_cases hc : (isValidRowCol row col0 && isValidRowCol row (col0 + 7)
        && isValidBlinkSpeed sc) = true
    · rw [hc, if_pos rfl]
      exact blinkPreserves_update s sc row _
    · rw [if_neg hc]
      exact blinkPreserves_refl s sc

/-- Witness for C10 at concrete positions and the normal speed class. -/
theorem c10_blink_ops_only_mask_witness :
    blinkPreserves (ledMatrixInit 0) (ledBlinkOn (ledMatrixInit 0) 0 4 0).1 0
    ∧ blinkPreserves (ledMatrixInit 0) (ledBlinkOff (ledMatrixInit 0) 0 4 0).1 0
    ∧ blinkPreserves (ledMatrixInit 0) (set7SegBlinkOn (ledMatrixInit 0) 0 8 true 0).1 0
    ∧ blinkPreserves (ledMatrixInit 0) (set7SegBlinkOff (ledMatrixInit 0) 0 8 true 0).1 0 :=
  c10_blink_ops_only_mask (ledMatrixInit 0) 0 4 8 0 true

/-- Bit view of one dark-phase masking step. -/
theorem darkMask_testBit (dark : Bool) (mask m c : Nat) (hc : c < 32) :
    (darkMask dark mask m).testBit c = (m.testBit c && !(dark && mask.testBit c)) := by
  cases dark
  · simp [darkMask]
  · simp [darkMask, Nat.testBit_and, testBit_compl32 hc]

/-- A set membership bit makes the blink-active check true. -/
theorem blinkOnCheck_of_testBit (s : LedState) (sc : Fin NO_OF_SPEED_CLASSES)
    (r : Fin LED_ROWS) (c : Nat) (h : (s.blinkStatus sc r).testBit c = true) :
    blinkOnCheck s = true := by
  unfold blinkOnCheck
  refine decide_eq_true ⟨sc, r, ?_⟩
  intro h0
  rw [h0, Nat.zero_testBit] at h
  exact Bool.false_ne_true h

/-- When some LED blinks, the phase fields produced by `doBlink` are those
after the two per-class timer updates. -/
theorem doBlink_phaseFields (now : Nat) (s : LedState) (hb : blinkOnCheck s = true) :
    (doBlink now s).isBlinkDarkPhase
        = (updateBlinkPhase now 1 (updateBlinkPhase now 0 s)).isBlinkDarkPhase
    ∧ (doBlink now s).blinkStartTime
        = (updateBlinkPhase now 1 (updateBlinkPhase now 0 s)).blinkStartTime
    ∧ (doBlink now s).nextBlinkInterval
        = (updateBlinkPhase now 1 (updateBlinkPhase now 0 s)).nextBlinkInterval := by
  refine ⟨?_, ?_, ?_⟩ <;> simp [doBlink, hb]

/-- One bit of the physical matrix after `doBlink`: the logical bit,
cleared when blinking is active, the owning class is in its dark phase
after the timer update, and the bit is a member of that class. -/
theorem doBlink_hw_testBit (now : Nat) (s : LedState) (r : Fin LED_ROWS) (c : Nat)
    (hc : c < 32) :
    ((doBlink now s).hwMatrix r).testBit c
      = ((s.matrix r).testBit c
          && !(blinkOnCheck s && (doBlink now s).isBlinkDarkPhase 0
                && (s.blinkStatus 0 r).testBit c)
          && !(blinkOnCheck s && (doBlink now s).isBlinkDarkPhase 1
                && (s.blinkStatus 1 r).testBit c)) := by
  cases hbv : blinkOnCheck s
  · simp only [hbv, Bool.false_and, Bool.not_false, Bool.and_true]
    simp [doBlink, hbv]
  · have hm1 : (updateBlinkPhase now 1 (updateBlinkPhase now 0 s)).matrix = s.matrix := by
      rw [updateBlinkPhase_matrix, updateBlinkPhase_matrix]
    have hb1 : (updateBlinkPhase now 1 (updateBlinkPhase now 0 s)).blinkStatus
        = s.blinkStatus := by
      rw [updateBlinkPhase_blinkStatus, updateBlinkPhase_blinkStatus]
    have hph : (doBlink now s).isBlinkDarkPhase
        = (updateBlinkPhase now 1 (updateBlinkPhase now 0 s)).isBlinkDarkPhase :=
      (doBlink_phaseFields now s hbv).1
    have hhw : (doBlink now s).hwMatrix r
        = darkMask ((updateBlinkPhase now 1 (updateBlinkPhase now 0 s)).isBlinkDarkPhase 1)
            ((updateBlinkPhase now 1 (updateBlinkPhase now 0 s)).blinkStatus 1 r)
            (darkMask ((updateBlinkPhase now 1 (updateBlinkPhase now 0 s)).isBlinkDarkPhase 0)
              ((updateBlinkPhase now 1 (updateBlinkPhase now 0 s)).blinkStatus 0 r)
              ((updateBlinkPhase now 1 (updateBlinkPhase now 0 s)).matrix r)) := by
      simp [doBlink, hbv]
    rw [hhw, darkMask_testBit _ _ _ _ hc, darkMask_testBit _ _ _ _ hc, hm1, hb1, hph]
    simp only [Bool.true_and]

/-- C5: a bit that is a member of only one speed class is shown according
to that class alone (its value is the logical bit masked by that class's
post-update dark phase, with no reference to the other class), and a bit
that is a member of both classes is dark in the physical matrix whenever
at least one of the two classes is in its dark phase. -/
theorem c5_cross_class (now : Nat) (s : LedState) (r : Fin LED_ROWS) (c : Nat)
    (hc : c < LED_COLS) :
    ((s.blinkStatus 1 r).testBit c = true → (s.blinkStatus 0 r).testBit c = false →
      ((doBlink now s).hwMatrix r).testBit c
        = ((s.matrix r).testBit c && !((doBlink now s).isBlinkDarkPhase 1)))
    ∧ ((s.blinkStatus 0 r).testBit c = true → (s.blinkStatus 1 r).testBit c = false →
      ((doBlink now s).hwMatrix r).testBit c
        = ((s.matrix r).testBit c && !((doBlink now s).isBlinkDarkPhase 0)))
    ∧ ((s.blinkStatus 0 r).testBit c = true → (s.blinkStatus 1 r).testBit c = true →
      ((doBlink now s).isBlinkDarkPhase 0 = true ∨ (doBlink now s).isBlinkDarkPhase 1 = true) →
      ((doBlink now s).hwMatrix r).testBit c = false) := by
  refine ⟨?_, ?_, ?_⟩
  · intro h1 h0
    rw [doBlink_hw_testBit now s r c hc, blinkOnCheck_of_testBit s 1 r c h1, h0, h1]
    cases (doBlink now s).isBlinkDarkPhase 0 <;>
      cases (doBlink now s).isBlinkDarkPhase 1 <;>
        cases (s.matrix r).testBit c <;> rfl
  · intro h0 h1
    rw [doBlink_hw_testBit now s r c hc, blinkOnCheck_of_testBit s 0 r c h0, h0, h1]
    cases (doBlink now s).isBlinkDarkPhase 0 <;>
      cases (doBlink now s).isBlinkDarkPhase 1 <;>
        cases (s.matrix r).testBit c <;> rfl
  · intro h0 h1 hd
    rw [doBlink_hw_testBit now s r c hc, blinkOnCheck_of_testBit s 0 r c h0, h0, h1]
    rcases hd with hd | hd <;> rw [hd] <;>
      cases (s.matrix r).testBit c <;> simp

/-- Witness for C5: the concrete single-member state, normal class only. -/
theorem c5_cross_class_witness :
    ((doBlink 0 c1State).hwMatrix ⟨0, by decide⟩).testBit 4
      = ((c1State.matrix ⟨0, by decide⟩).testBit 4
          && !((doBlink 0 c1State).isBlinkDarkPhase 0)) :=
  (c5_cross_class 0 c1State ⟨0, by decide⟩ 4 (by decide)).2.1 (by decide) (by decide)

/-- Without wraparound the unsigned 32-bit subtraction is the plain
difference. -/
theorem usub32_eq_sub (a b : Nat) (hba : b ≤ a) (ha : a < U32) : usub32 a b = a - b := by
  unfold usub32
  rw [Nat.mod_eq_of_lt ha, Nat.mod_eq_of_lt (lt_of_le_of_lt hba ha)]
  have hb : b ≤ U32 := le_of_lt (lt_of_le_of_lt hba ha)
  have h1 : a + (U32 - b) = (a - b) + U32 := by omega
  rw [h1, Nat.add_mod_right, Nat.mod_eq_of_lt (by omega)]

/-- The timer update of one speed class leaves the other class alone. -/
theorem updateBlinkPhase_other (now : Nat) (sc j : Fin NO_OF_SPEED_CLASSES)
    (s : LedState) (hj : j ≠ sc) :
    (updateBlinkPhase now sc s).isBlinkDarkPhase j = s.isBlinkDarkPhase j
    ∧ (updateBlinkPhase now sc s).blinkStartTime j = s.blinkStartTime j
    ∧ (updateBlinkPhase now sc s).nextBlinkInterval j = s.nextBlinkInterval j := by
  unfold updateBlinkPhase
  split
  · exact ⟨by simp [hj], by simp [hj], by simp [hj]⟩
  · exact ⟨rfl, rfl, rfl⟩

/-- If the interval of a class has not yet elapsed, its timer update does
nothing. -/
theorem updateBlinkPhase_not_elapsed (now : Nat) (sc : Fin NO_OF_SPEED_CLASSES)
    (s : LedState) (h : ¬ s.nextBlinkInterval sc < usub32 now (s.blinkStartTime sc)) :
    updateBlinkPhase now sc s = s := by
  unfold updateBlinkPhase
  rw [if_neg h]

/-- If the interval of a class has elapsed, its timer update flips the
phase, loads the duration of the phase being left behind as the next
interval, and restarts the timer at the clock value. -/
theorem updateBlinkPhase_elapsed (now : Nat) (sc : Fin NO_OF_SPEED_CLASSES)
    (s : LedState) (h : s.nextBlinkInterval sc < usub32 now (s.blinkStartTime sc)) :
    (updateBlinkPhase now sc s).isBlinkDarkPhase sc = !(s.isBlinkDarkPhase sc)
    ∧ (updateBlinkPhase now sc s).blinkStartTime sc = now % U32
    ∧ (updateBlinkPhase now sc s).nextBlinkInterval sc
        = (if s.isBlinkDarkPhase sc then BLINK_INTERVAL_BRIGHT sc
           else BLINK_INTERVAL_DARK sc) := by
  unfold updateBlinkPhase
  rw [if_pos h]
  exact ⟨by simp, by simp, by simp⟩

/-- C1 (amended: both waits strictly longer than 1000 ms): a single LED
whose only blink membership is the normal class (1000 ms bright, 1000 ms
dark), sampled at the start of a bright phase, is lit; sampled again more
than 1000 ms later it is dark; sampled once more, more than a further
1000 ms later, it is lit again. -/
theorem c1_blink_phase_toggle (s : LedState) (t d1 d2 : Nat) (r : Fin LED_ROWS) (c : Nat)
    (hc : c < LED_COLS)
    (hmem0 : (s.blinkStatus 0 r).testBit c = true)
    (hmem1 : (s.blinkStatus 1 r).testBit c = false)
    (hlit : (s.matrix r).testBit c = true)
    (hph : s.isBlinkDarkPhase 0 = false)
    (hst : s.blinkStartTime 0 = t)
    (hint : s.nextBlinkInterval 0 = 1000)
    (hd1 : 1000 < d1) (hd2 : 1000 < d2) (hbound : t + d1 + d2 < U32) :
    ((doBlink t s).hwMatrix r).testBit c = true
    ∧ ((doBlink (t + d1) (doBlink t s)).hwMatrix r).testBit c = false
    ∧ ((doBlink (t + d1 + d2) (doBlink (t + d1) (doBlink t s))).hwMatrix r).testBit c
        = true := by
  have hb0 : blinkOnCheck s = true := blinkOnCheck_of_testBit s 0 r c hmem0
  -- first sample, at the phase start: the interval of the normal class
  -- has not elapsed
  have hA0 : ¬ s.nextBlinkInterval 0 < usub32 t (s.blinkStartTime 0) := by
    rw [hst, hint, usub32_eq_sub t t le_rfl (by omega)]
    omega
  have hA : updateBlinkPhase t 0 s = s := updateBlinkPhase_not_elapsed t 0 s hA0
  have hdark1 : (doBlink t s).isBlinkDarkPhase 0 = false := by
    rw [(doBlink_phaseFields t s hb0).1, hA,
      (updateBlinkPhase_other t 1 0 s (by decide)).1, hph]
  have hstart1 : (doBlink t s).blinkStartTime 0 = t := by
    rw [(doBlink_phaseFields t s hb0).2.1, hA,
      (updateBlinkPhase_other t 1 0 s (by decide)).2.1, hst]
  have hint1 : (doBlink t s).nextBlinkInterval 0 = 1000 := by
    rw [(doBlink_phaseFields t s hb0).2.2, hA,
      (updateBlinkPhase_other t 1 0 s (by decide)).2.2, hint]
  have hmask1 : (doBlink t s).blinkStatus = s.blinkStatus := doBlink_blinkStatus t s
  have hmat1 : (doBlink t s).matrix = s.matrix := doBlink_matrix t s
  have hb1 : blinkOnCheck (doBlink t s) = true := by
    apply blinkOnCheck_of_testBit _ 0 r c
    rw [hmask1]
    exact hmem0
  have conj1 : ((doBlink t s).hwMatrix r).testBit c = true := by
    rw [doBlink_hw_testBit t s r c hc, hb0, hlit, hmem0, hmem1, hdark1]
    simp
  -- second sample, more than 1000 ms later: the normal class flips to
  -- its dark phase
  have hB0 : (doBlink t s).nextBlinkInterval 0
      < usub32 (t + d1) ((doBlink t s).blinkStartTime 0) := by
    rw [hint1, hstart1, usub32_eq_sub (t + d1) t (by omega) (by omega)]
    omega
  have hBel := updateBlinkPhase_elapsed (t + d1) 0 (doBlink t s) hB0
  have hBdark : (updateBlinkPhase (t + d1) 0 (doBlink t s)).isBlinkDarkPhase 0 = true := by
    rw [hBel.1, hdark1]
    rfl
  have hBstart : (updateBlinkPhase (t + d1) 0 (doBlink t s)).blinkStartTime 0 = t + d1 := by
    rw [hBel.2.1, Nat.mod_eq_of_lt (by omega)]
  have hBint : (updateBlinkPhase (t + d1) 0 (doBlink t s)).nextBlinkInterval 0 = 1000 := by
    rw [hBel.2.2, hdark1]
    rfl
  have hdark2 : (doBlink (t + d1) (doBlink t s)).isBlinkDarkPhase 0 = true := by
    rw [(doBlink_phaseFields (t + d1) (doBlink t s) hb1).1,
      (updateBlinkPhase_other (t + d1) 1 0 _ (by decide)).1, hBdark]
  have hstart2 : (doBlink (t + d1) (doBlink t s)).blinkStartTime 0 = t + d1 := by
    rw [(doBlink_phaseFields (t + d1) (doBlink t s) hb1).2.1,
      (updateBlinkPhase_other (t + d1) 1 0 _ (by decide)).2.1, hBstart]
  have hint2 : (doBlink (t + d1) (doBlink t s)).nextBlinkInterval 0 = 1000 := by
    rw [(doBlink_phaseFields (t + d1) (doBlink t s) hb1).2.2,
      (updateBlinkPhase_other (t + d1) 1 0 _ (by decide)).2.2, hBint]
  have hmask2 : (doBlink (t + d1) (doBlink t s)).blinkStatus = s.blinkStatus := by
    rw [doBlink_blinkStatus, hmask1]
  have hmat2 : (doBlink (t + d1) (doBlink t s)).matrix = s.matrix := by
    rw [doBlink_matrix, hmat1]
  have hb2 : blinkOnCheck (doBlink (t + d1) (doBlink t s)) = true := by
    apply blinkOnCheck_of_testBit _ 0 r c
    rw [hmask2]
    exact hmem0
  have conj2 : ((doBlink (t + d1) (doBlink t s)).hwMatrix r).testBit c = false := by
    rw [doBlink_hw_testBit (t + d1) (doBlink t s) r c hc, hb1, hmat1, hmask1, hlit,
      hmem0, hdark2]
    simp
  -- third sample, more than a further 1000 ms later: the normal class
  -- flips back to its bright phase
  have hC0 : (doBlink (t + d1) (doBlink t s)).nextBlinkInterval 0
      < usub32 (t + d1 + d2) ((doBlink (t + d1) (doBlink t s)).blinkStartTime 0) := by
    rw [hint2, hstart2, usub32_eq_sub (t + d1 + d2) (t + d1) (by omega) (by omega)]
    omega
  have hCel := updateBlinkPhase_elapsed (t + d1 + d2) 0 (doBlink (t + d1) (doBlink t s)) hC0
  have hCdark : (updateBlinkPhase (t + d1 + d2) 0
      (doBlink (t + d1) (doBlink t s))).isBlinkDarkPhase 0 = false := by
    rw [hCel.1, hdark2]
    rfl
  have hdark3 : (doBlink (t + d1 + d2) (doBlink (t + d1) (doBlink t s))).isBlinkDarkPhase 0
      = false := by
    rw [(doBlink_phaseFields (t + d1 + d2) (doBlink (t + d1) (doBlink t s)) hb2).1,
      (updateBlinkPhase_other (t + d1 + d2) 1 0 _ (by decide)).1, hCdark]
  have conj3 : ((doBlink (t + d1 + d2) (doBlink (t + d1) (doBlink t s))).hwMatrix r).testBit c
      = true := by
    rw [doBlink_hw_testBit (t + d1 + d2) (doBlink (t + d1) (doBlink t s)) r c hc, hb2,
      hmat2, hmask2, hlit, hmem0, hmem1, hdark3]
    simp
  exact ⟨conj1, conj2, conj3⟩

/-- Witness for the amended C1 at the concrete single-member state with
waits of 1001 ms each. -/
theorem c1_blink_phase_toggle_witness :
    ((doBlink 0 c1State).hwMatrix ⟨0, by decide⟩).testBit 4 = true
    ∧ ((doBlink 1001 (doBlink 0 c1State)).hwMatrix ⟨0, by decide⟩).testBit 4 = false
    ∧ ((doBlink 2002 (doBlink 1001 (doBlink 0 c1State))).hwMatrix
        ⟨0, by decide⟩).testBit 4 = true :=
  c1_blink_phase_toggle c1State 0 1001 1001 ⟨0, by decide⟩ 4 (by decide) (by decide)
    (by decide) (by decide) (by decide) rfl rfl (by decide) (by decide) (by decide)

/-- Counterexample to C1 as stated: with the same setup, the third sample
taken exactly 1000 ms after the start of the dark phase (a wait of
1000 ms, which the claim words as 1000 ms or more) still shows the LED
dark, because the code flips a phase only when strictly more than the
interval has elapsed. The first two samples behave as the claim says. -/
theorem c1_boundary_counterexample :
    ((doBlink 0 c1State).hwMatrix ⟨0, by decide⟩).testBit 4 = true
    ∧ ((doBlink 1001 (doBlink 0 c1State)).hwMatrix ⟨0, by decide⟩).testBit 4 = false
    ∧ ((doBlink 2001 (doBlink 1001 (doBlink 0 c1State))).hwMatrix
        ⟨0, by decide⟩).testBit 4 = false := by
  refine ⟨by decide, by decide, by decide⟩

/-- The data-line level driven per bit equals the tested bit of the word:
`(w >> b) & 1` is nonzero exactly when bit `b` of `w` is set. -/
theorem data_bit_eq (w b : Nat) :
    decide (((w >>> b) &&& 1) ≠ 0) = w.testBit b := by
  rw [Nat.and_one_is_mod, Nat.shiftRight_eq_div_pow, Nat.testBit_to_div_mod]
  refine decide_eq_decide.mpr ?_
  generalize w / 2 ^ b = x
  omega

/-- The countdown column loop emits the bits of the word from the most
significant position downwards, one clocked pulse each. -/
theorem shiftColBits_eq (w n : Nat) :
    shiftColBits w n
      = (List.range n).reverse.flatMap (fun i => specBitPulse (w.testBit i)) := by
  induction n with
  | zero => rfl
  | succ n ih =>
    have hrev : (List.range (n + 1)).reverse = n :: (List.range n).reverse := by
      rw [List.range_succ, List.reverse_append]
      rfl
    rw [hrev, List.flatMap_cons, ← ih]
    show shiftColBits w (n + 1) = specBitPulse (w.testBit n) ++ shiftColBits w n
    simp [shiftColBits, specBitPulse, data_bit_eq]

/-- The countdown row-select loop emits the bits of the row byte from the
most significant position downwards, one clocked pulse each. -/
theorem shiftRowBits_eq (w n : Nat) :
    shiftRowBits w n
      = (List.range n).reverse.flatMap (fun i => specRowSelectPulse (w.testBit i)) := by
  induction n with
  | zero => rfl
  | succ n ih =>
    have hrev : (List.range (n + 1)).reverse = n :: (List.range n).reverse := by
      rw [List.range_succ, List.reverse_append]
      rfl
    rw [hrev, List.flatMap_cons, ← ih]
    show shiftRowBits w (n + 1) = specRowSelectPulse (w.testBit n) ++ shiftRowBits w n
    simp [shiftRowBits, specRowSelectPulse, data_bit_eq]

/-- Bit `i` of the row-select byte `1 << row` is set exactly for the
current row: the byte is one-hot. -/
theorem one_hot_testBit (row i : Nat) :
    ((1 : Nat) <<< row).testBit i = decide (i = row) := by
  rw [Nat.one_shiftLeft, Nat.testBit_two_pow]
  exact decide_eq_decide.mpr ⟨Eq.symm, Eq.symm⟩

/-- One row of the emitted trace matches the claimed shape exactly. -/
theorem displayRowEvents_eq (w row : Nat) :
    displayRowEvents w row = specRowTrace w row := by
  unfold displayRowEvents specRowTrace
  rw [shiftColBits_eq, shiftRowBits_eq]
  simp only [one_hot_testBit]
  rfl

/-- C7: one refresh call emits, for each of the 8 rows in ascending
order, exactly: strobe low, the 32 column bits of that row of the
physical matrix most significant bit first with one clock pulse per bit,
an 8-bit one-hot row-select byte with exactly the bit of the current row
set, also most significant bit first with one clock pulse per bit, and
strobe high. -/
theorem c7_display_serialization (now : Nat) (s : LedState) :
    (display now s).2 = specRefreshTrace ((doBlink now s).hwMatrix) := by
  unfold display specRefreshTrace
  simp only [displayRowEvents_eq]
